import Mathlib

/-!
Shallow embedding of `代码结构阅读器.py` (CodeStructureReader): a drag-and-drop
tool whose background thread (`FileProcessThread`) renders a directory tree
(`get_file_structure`), walks files (`process_directory` over `os.walk`),
classifies/reads each file (`process_file`), and a widget (`FileDropWidget`)
that accumulates the emitted records (`update_content`) and renders them
(`update_text_edit`).

The filesystem is modelled as a tree: a file carries the outcome that
`open(path, encoding='utf-8').read()` would have (`Except.ok content` or
`Except.error msg`, the latter standing for any I/O or decode exception whose
`str(e)` is `msg`); a directory carries its children in `os.scandir` order.
-/

namespace CSR

/-- A filesystem entry: `name` is the base name.  For a file, `readResult`
is the outcome of reading it as UTF-8 text. -/
inductive FSEntry where
  | file (name : String) (readResult : Except String String)
  | dir (name : String) (children : List FSEntry)
deriving Repr

/-- Base name of an entry. -/
def FSEntry.name : FSEntry → String
  | .file n _ => n
  | .dir n _ => n

/-- Source constant `self.max_files = 1000`. -/
def max_files : Nat := 1000

/-- Source constant `self.max_depth = 5` (a Python int; the tree-walk budget is mutated with
`-= 1`/`+= 1`, so it is modelled as `Int`). -/
def max_depth : Int := 5

/-- Source constant `self.skip_extensions`: the 16 extensions from .png to .pptx. -/
def skip_extensions : List String :=
  [".png", ".jpg", ".jpeg", ".gif", ".bmp", ".mp3", ".mp4", ".avi", ".mov",
   ".pdf", ".doc", ".docx", ".xls", ".xlsx", ".ppt", ".pptx"]

/-- Python `str.lower()` restricted to what `Char.toLower` lowers (ASCII letters,
which covers every extension in the skip set). -/
def strLower (s : String) : String :=
  String.mk (s.toList.map Char.toLower)

/-- The extension part of `os.path.splitext(name)` for a base name (no path
separator present): the suffix starting at the last dot, unless every
character before that dot is itself a dot (leading dots are part of the
name, so `.cshrc` has no extension). -/
def splitextExt (name : String) : String :=
  let r := name.toList.reverse
  match r.dropWhile (fun c => c ≠ '.') with
  | [] => ""
  | _ :: before =>
      if before.any (fun c => c ≠ '.') then
        String.mk ('.' :: (r.takeWhile (fun c => c ≠ '.')).reverse)
      else ""

/-- One emission of `update_signal.emit(name, content, kind)`; `kind` is one
of `"structure"`, `"file"`, `"skipped"`, `"error"` (and the embedding appends
a `"finished"` record for `finished_signal.emit()`). -/
structure Record where
  name : String
  content : String
  kind : String
deriving Repr, DecidableEq

/-- Source method `FileProcessThread.process_file(file_path)`: skip by extension
(lower-cased) without opening, else read; any exception becomes an `error`
record embedding the path and the exception text.  `path` is the full path,
`name` its base name, `rr` the read outcome the filesystem would give. -/
def process_file (path name : String) (rr : Except String String) : Record :=
  if strLower (splitextExt name) ∈ skip_extensions then
    ⟨name, "跳过该文件类型", "skipped"⟩
  else
    match rr with
    | .ok content => ⟨name, content, "file"⟩
    | .error e => ⟨name, "Error reading " ++ path ++ ": " ++ e, "error"⟩

/-- The `files` component of one `os.walk` triple: the non-directory entries
of a directory listing, in `os.scandir` order, as
`(full path, base name, read outcome)`. -/
def fileTriples (p : String) : List FSEntry → List (String × String × Except String String)
  | [] => []
  | .file n r :: rest => (p ++ "/" ++ n, n, r) :: fileTriples p rest
  | .dir _ _ :: rest => fileTriples p rest

/-- The recursive part of top-down `os.walk`: after the current directory's
own files, each subdirectory's walk, in `os.scandir` order. -/
def walkSubs (p : String) : List FSEntry → List (String × String × Except String String)
  | [] => []
  | .file _ _ :: rest => walkSubs p rest
  | .dir n cs :: rest =>
      let p' := p ++ "/" ++ n
      (fileTriples p' cs ++ walkSubs p' cs) ++ walkSubs p rest

/-- All file triples yielded by `os.walk(p)` on directory entry `e`, in
visit order (top-down: a directory's files, then its subdirectories). -/
def walkFrom (p : String) (e : FSEntry) : List (String × String × Except String String) :=
  match e with
  | .file _ _ => []
  | .dir _ cs => fileTriples p cs ++ walkSubs p cs

/-- The body of `process_directory`'s loop over the flattened `os.walk`
sequence: before each file, `if file_count >= self.max_files: return`. -/
def processLoop : List (String × String × Except String String) → Nat → List Record
  | [], _ => []
  | t :: ts, c =>
      if c ≥ max_files then []
      else process_file t.1 t.2.1 t.2.2 :: processLoop ts (c + 1)

/-- Source method `FileProcessThread.process_directory(dir_path, depth=0)`; the `depth`
guard is vestigial (the method is only ever called with `depth = 0`). -/
def process_directory (p : String) (root : FSEntry) (depth : Int) : List Record :=
  if depth > max_depth then [] else processLoop (walkFrom p root) 0

/-- The loop of `print_directory` inside `get_file_structure`, with the
closure state made explicit: `m` is the `nonlocal max_depth` budget, and the
result pairs the lines appended to `output` with the budget's final value.
In the source the recursive call `print_directory(entry.path, ...)` is
guarded by `if max_depth > 0:`; under that guard the callee's own entry
check (`if max_depth <= 0: return`) can never fire, so the call appears
here directly as `pdLoop`. -/
def pdLoop (prefx : String) : List FSEntry → Int → List String × Int
  | [], m => ([], m)
  | .file n _ :: rest, m =>
      let line := prefx ++ (if rest.isEmpty then "└── " else "├── ") ++ n
      let out := pdLoop prefx rest m
      (line :: out.1, out.2)
  | .dir n cs :: rest, m =>
      let isLast := rest.isEmpty
      let line := prefx ++ (if isLast then "└── " else "├── ") ++ n
      let extn := if isLast then "    " else "│   "
      let m1 := m - 1
      let sub := if 0 < m1 then pdLoop (prefx ++ extn) cs m1 else ([], m1)
      let out := pdLoop prefx rest (sub.2 + 1)
      (line :: (sub.1 ++ out.1), out.2)

/-- Source function `print_directory(path)` with empty initial indentation: the entry guard
`if max_depth <= 0: return` followed by the loop over `os.scandir(path)`. -/
def print_directory (cs : List FSEntry) (prefx : String) (m : Int) : List String × Int :=
  if m ≤ 0 then ([], m) else pdLoop prefx cs m

/-- Source method `get_file_structure(start_path)`: `output` starts with
`os.path.basename(start_path)`, then `print_directory(start_path)` runs.
`os.scandir` on a path that is not a directory raises `NotADirectoryError`;
in the embedding that surfaces as the `.error` branch for a file root,
reached exactly when the `max_depth <= 0` entry guard does not return
first. -/
def get_file_structure (path : String) (root : FSEntry) : Except String String :=
  match root with
  | .dir name cs =>
      .ok (String.intercalate "\n" (name :: (print_directory cs "" max_depth).1))
  | .file name _ =>
      if max_depth ≤ 0 then .ok name
      else .error ("NotADirectoryError: " ++ path)

/-- Source method `FileProcessThread.run`, as the sequence of emitted records paired with
the exception escaping it, if any (`none` means `finished_signal` was
emitted; the `"finished"` record stands for that signal). -/
def runThread (path : String) (root : FSEntry) : List Record × Option String :=
  match get_file_structure path root with
  | .error e => ([], some e)
  | .ok s =>
      let body :=
        match root with
        | .dir _ _ => process_directory path root 0
        | .file n rr => [process_file path n rr]
      (⟨"structure", s, "structure"⟩ :: (body ++ [⟨"", "", "finished"⟩]), none)

/-- Modelled from the spec (§9): the reference formulation of the tree walk
with an explicit `remainingDepth` parameter "passed by value into each
recursive call, never shared/mutated across siblings".  The recursive call's
entry guard `remainingDepth <= 0` is inlined at the call site. -/
def byValueLoop (prefx : String) : List FSEntry → Int → List String
  | [], _ => []
  | .file n _ :: rest, d =>
      (prefx ++ (if rest.isEmpty then "└── " else "├── ") ++ n) :: byValueLoop prefx rest d
  | .dir n cs :: rest, d =>
      let isLast := rest.isEmpty
      let line := prefx ++ (if isLast then "└── " else "├── ") ++ n
      let extn := if isLast then "    " else "│   "
      line :: ((if d - 1 ≤ 0 then [] else byValueLoop (prefx ++ extn) cs (d - 1))
        ++ byValueLoop prefx rest d)

/-- Modelled from the spec (§9): by-value tree walk, entry guard then loop. -/
def byValue (cs : List FSEntry) (prefx : String) (d : Int) : List String :=
  if d ≤ 0 then [] else byValueLoop prefx cs d

/-- The widget state touched by `update_content`: the accumulated
`(name, content)` pairs, the current structure text, and the visible
file-list entries. -/
structure ShellState where
  files_content : List (String × String)
  file_structure : String
  fileListWidget : List String
deriving Repr, DecidableEq

/-- Source method `FileDropWidget.update_content(name, content, content_type)`. -/
def update_content (st : ShellState) (r : Record) : ShellState :=
  if r.kind = "structure" then { st with file_structure := r.content }
  else if r.kind = "file" then
    { st with files_content := st.files_content ++ [(r.name, r.content)],
              fileListWidget := st.fileListWidget ++ [r.name] }
  else if r.kind = "error" then
    { st with fileListWidget := st.fileListWidget ++ ["Error: " ++ r.name] }
  else if r.kind = "skipped" then
    { st with fileListWidget := st.fileListWidget ++ ["Skipped: " ++ r.name] }
  else st

/-- Source method `FileDropWidget.update_text_edit`, as a pure function of the state it
reads: the four `+=` steps per accumulated pair, after the header. -/
def update_text_edit (file_structure : String) (files_content : List (String × String)) : String :=
  let header := ("文件结构:\n" ++ file_structure ++ "\n\n") ++ "文件内容:\n"
  files_content.foldl
    (fun acc nc =>
      ((acc ++ (String.mk (List.replicate 50 '=') ++ "\n"))
          ++ ("文件名: " ++ nc.1 ++ "\n")
          ++ (String.mk (List.replicate 50 '-') ++ "\n"))
          ++ (nc.2 ++ "\n\n"))
    header

/-- Number of file entries anywhere in a forest (any depth). -/
def countFiles : List FSEntry → Nat
  | [] => 0
  | .file _ _ :: rest => 1 + countFiles rest
  | .dir _ cs :: rest => countFiles cs + countFiles rest

/-- In-order enumeration of every file of a forest: depth-first, files and
directories interleaved exactly as listed.  Each file node contributes
exactly one triple. -/
def allFiles (p : String) : List FSEntry → List (String × String × Except String String)
  | [] => []
  | .file n r :: rest => (p ++ "/" ++ n, n, r) :: allFiles p rest
  | .dir n cs :: rest => allFiles (p ++ "/" ++ n) cs ++ allFiles p rest

/-- Number of entries (files and directories) at root-relative depth `≤ d`,
top-level entries having depth 1. -/
def countUpTo (d : Int) : List FSEntry → Nat
  | [] => 0
  | .file _ _ :: rest => (if 1 ≤ d then 1 else 0) + countUpTo d rest
  | .dir _ cs :: rest => (if 1 ≤ d then 1 + countUpTo (d - 1) cs else 0) + countUpTo d rest

/-- Remove everything strictly below depth `d`: a directory at depth `d`
keeps its own entry but loses its children. -/
def prune (d : Int) : List FSEntry → List FSEntry
  | [] => []
  | .file n r :: rest => .file n r :: prune d rest
  | .dir n cs :: rest => .dir n (if d ≤ 1 then [] else prune (d - 1) cs) :: prune d rest

/-- Files (any depth) that are neither skipped by extension nor failing to
read: exactly those that `process_file` turns into a `"file"` record. -/
def countReadable : List FSEntry → Nat
  | [] => 0
  | .file n r :: rest =>
      (if strLower (splitextExt n) ∉ skip_extensions ∧ r.isOk = true then 1 else 0)
        + countReadable rest
  | .dir _ cs :: rest => countReadable cs + countReadable rest

/-- Concatenation of a list of strings, in order. -/
def joinAll : List String → String
  | [] => ""
  | s :: rest => s ++ joinAll rest

/-- The per-file block of `update_text_edit`: 50 `=`, newline, `文件名: `
and the name, newline, 50 `-`, newline, the content, two newlines. -/
def fileBlock (nc : String × String) : String :=
  String.mk (List.replicate 50 '=') ++ "\n"
    ++ ("文件名: " ++ nc.1 ++ "\n")
    ++ (String.mk (List.replicate 50 '-') ++ "\n")
    ++ (nc.2 ++ "\n\n")

/-! ### Induction principle for forests -/

/-- Structural induction over a list of filesystem entries, descending both
into siblings and into a directory's children. -/
theorem fsForestInduct (P : List FSEntry → Prop) (h0 : P [])
    (hf : ∀ n r rest, P rest → P (.file n r :: rest))
    (hd : ∀ n cs rest, P cs → P rest → P (.dir n cs :: rest)) :
    ∀ l : List FSEntry, P l := by
  have key : ∀ (k : Nat) (l : List FSEntry), sizeOf l ≤ k → P l := by
    intro k
    induction k with
    | zero =>
        intro l hl
        cases l with
        | nil => exact h0
        | cons e rest => simp at hl
    | succ k ih =>
        intro l hl
        cases l with
        | nil => exact h0
        | cons e rest =>
            cases e with
            | file n r =>
                exact hf n r rest (ih rest (by simp at hl; omega))
            | dir n cs =>
                refine hd n cs rest (ih cs ?_) (ih rest ?_) <;> (simp at hl; omega)
  exact fun l => key (sizeOf l) l (Nat.le_refl _)

/-! ### The shared depth budget is restored between siblings -/

/-- The loop of the shared-counter walk produces exactly the by-value walk's
lines, and returns the budget unchanged: each `max_depth -= 1` is matched by
the `max_depth += 1` executed when the descent returns, so no change is ever
observable by a later sibling. -/
theorem pdLoop_eq_byValueLoop :
    ∀ (cs : List FSEntry) (prefx : String) (m : Int),
      pdLoop prefx cs m = (byValueLoop prefx cs m, m) := by
  intro cs
  induction cs using fsForestInduct with
  | h0 => intro prefx m; simp [pdLoop, byValueLoop]
  | hf n r rest ih => intro prefx m; simp [pdLoop, byValueLoop, ih]
  | hd n cs rest ihcs ihrest =>
      intro prefx m
      simp only [pdLoop, byValueLoop]
      by_cases h : 0 < m - 1
      · rw [if_pos h, ihcs, if_neg (by omega : ¬ m - 1 ≤ 0)]
        simp only
        rw [show m - 1 + 1 = m by ring, ihrest]
      · rw [if_neg h, if_pos (by omega : m - 1 ≤ 0)]
        simp only
        rw [show m - 1 + 1 = m by ring, ihrest]

/-- `print_directory` agrees with the by-value reference walk and restores
the shared budget. -/
theorem print_directory_eq_byValue (cs : List FSEntry) (prefx : String) (m : Int) :
    print_directory cs prefx m = (byValue cs prefx m, m) := by
  unfold print_directory byValue
  by_cases h : m ≤ 0
  · simp [h]
  · simp [h, pdLoop_eq_byValueLoop]

/-! ### Depth accounting for the tree rendering -/

theorem countUpTo_nonpos : ∀ (cs : List FSEntry) (d : Int), d ≤ 0 → countUpTo d cs = 0 := by
  intro cs
  induction cs using fsForestInduct with
  | h0 => intro d _; simp [countUpTo]
  | hf n r rest ih =>
      intro d hd
      simp [countUpTo, ih d hd, if_neg (by omega : ¬ (1 : Int) ≤ d)]
  | hd n cs rest ihcs ihrest =>
      intro d hd
      simp [countUpTo, ihrest d hd, if_neg (by omega : ¬ (1 : Int) ≤ d)]

theorem byValueLoop_length :
    ∀ (cs : List FSEntry) (prefx : String) (d : Int), 1 ≤ d →
      (byValueLoop prefx cs d).length = countUpTo d cs := by
  intro cs
  induction cs using fsForestInduct with
  | h0 => intro prefx d _; simp [byValueLoop, countUpTo]
  | hf n r rest ih =>
      intro prefx d hd
      simp [byValueLoop, countUpTo, ih prefx d hd, if_pos hd]
      omega
  | hd n cs rest ihcs ihrest =>
      intro prefx d hd
      simp only [byValueLoop, countUpTo, if_pos hd, List.length_cons, List.length_append]
      by_cases h : d - 1 ≤ 0
      · rw [if_pos h, countUpTo_nonpos cs (d - 1) h, ihrest prefx d hd]
        simp
        omega
      · rw [if_neg h, ihcs (prefx ++ if rest.isEmpty = true then "    " else "│   ") (d - 1)
          (by omega), ihrest prefx d hd]
        omega

/-- Every line of the by-value walk corresponds to an entry of depth
`≤ d`. -/
theorem byValue_length (cs : List FSEntry) (prefx : String) (d : Int) :
    (byValue cs prefx d).length = countUpTo d cs := by
  unfold byValue
  by_cases h : d ≤ 0
  · simp [h, countUpTo_nonpos cs d h]
  · simp [h, byValueLoop_length cs prefx d (by omega)]

theorem prune_isEmpty (d : Int) (cs : List FSEntry) :
    (prune d cs).isEmpty = cs.isEmpty := by
  cases cs with
  | nil => simp [prune]
  | cons e rest => cases e <;> simp [prune]

/-- Entries strictly below depth `d` contribute nothing to the by-value
walk's output: the walk never descends past depth `d`. -/
theorem byValueLoop_prune :
    ∀ (cs : List FSEntry) (prefx : String) (d : Int),
      byValueLoop prefx (prune d cs) d = byValueLoop prefx cs d := by
  intro cs
  induction cs using fsForestInduct with
  | h0 => intro prefx d; simp [prune]
  | hf n r rest ih =>
      intro prefx d
      simp only [prune, byValueLoop, prune_isEmpty, ih prefx d]
  | hd n cs rest ihcs ihrest =>
      intro prefx d
      simp only [prune, byValueLoop, prune_isEmpty, ihrest prefx d]
      by_cases h : d - 1 ≤ 0
      · rw [if_pos h, if_pos h]
      · rw [if_neg h, if_neg h]
        have hle : ¬ d ≤ 1 := by omega
        rw [if_neg hle, ihcs]

theorem byValue_prune (cs : List FSEntry) (prefx : String) (d : Int) :
    byValue (prune d cs) prefx d = byValue cs prefx d := by
  unfold byValue
  by_cases h : d ≤ 0
  · simp [h]
  · simp [h, byValueLoop_prune]

/-! ### The file walk visits every file exactly once -/

theorem allFiles_length : ∀ (cs : List FSEntry) (p : String),
    (allFiles p cs).length = countFiles cs := by
  intro cs
  induction cs using fsForestInduct with
  | h0 => intro p; simp [allFiles, countFiles]
  | hf n r rest ih => intro p; simp [allFiles, countFiles, ih]; omega
  | hd n cs rest ihcs ihrest => intro p; simp [allFiles, countFiles, ihcs, ihrest]

/-- Moving a middle block to the front is a permutation. -/
theorem perm_pull_middle {α : Type} (A B C : List α) :
    (A ++ (B ++ C)).Perm (B ++ (A ++ C)) := by
  have h1 : A ++ (B ++ C) = (A ++ B) ++ C := (List.append_assoc A B C).symm
  have h2 : (B ++ A) ++ C = B ++ (A ++ C) := List.append_assoc B A C
  rw [h1, ← h2]
  exact List.perm_append_comm.append_right C

/-- `os.walk` order (files of a directory first, then subtrees) is a
permutation of the interleaved `os.scandir`-order enumeration: every file of
the forest appears exactly once in the walk. -/
theorem walk_perm : ∀ (cs : List FSEntry) (p : String),
    (fileTriples p cs ++ walkSubs p cs).Perm (allFiles p cs) := by
  intro cs
  induction cs using fsForestInduct with
  | h0 => intro p; simp [fileTriples, walkSubs, allFiles]
  | hf n r rest ih =>
      intro p
      simp only [fileTriples, walkSubs, allFiles, List.cons_append]
      exact (ih p).cons _
  | hd n cs rest ihcs ihrest =>
      intro p
      simp only [fileTriples, walkSubs, allFiles]
      refine List.Perm.trans
        (perm_pull_middle (fileTriples p rest)
          (fileTriples (p ++ "/" ++ n) cs ++ walkSubs (p ++ "/" ++ n) cs)
          (walkSubs p rest)) ?_
      exact (ihcs _).append (ihrest _)

theorem walkFrom_length (p : String) (nm : String) (cs : List FSEntry) :
    (walkFrom p (.dir nm cs)).length = countFiles cs := by
  unfold walkFrom
  rw [(walk_perm cs p).length_eq, allFiles_length]

/-! ### The bounded processing loop -/

theorem processLoop_take : ∀ (ts : List (String × String × Except String String)) (c : Nat),
    processLoop ts c
      = (ts.take (max_files - c)).map (fun t => process_file t.1 t.2.1 t.2.2) := by
  intro ts
  induction ts with
  | nil => intro c; simp [processLoop]
  | cons t ts ih =>
      intro c
      by_cases h : c ≥ max_files
      · simp [processLoop, h, Nat.sub_eq_zero_of_le h]
      · rw [processLoop, if_neg h, ih (c + 1),
          show max_files - c = (max_files - (c + 1)) + 1 from by omega,
          List.take_succ_cons, List.map_cons]

theorem processLoop_length (ts : List (String × String × Except String String)) :
    (processLoop ts 0).length = min max_files ts.length := by
  rw [processLoop_take, List.length_map, Nat.sub_zero, List.length_take]

/-! ### Flat forests of files -/

theorem countFiles_replicate (k : Nat) (n : String) (r : Except String String) :
    countFiles (List.replicate k (.file n r)) = k := by
  induction k with
  | zero => simp [countFiles]
  | succ k ih => simp [List.replicate_succ, countFiles, ih]; omega

theorem fileTriples_replicate (k : Nat) (p n : String) (r : Except String String) :
    fileTriples p (List.replicate k (.file n r))
      = List.replicate k (p ++ "/" ++ n, n, r) := by
  induction k with
  | zero => simp [fileTriples]
  | succ k ih => simp [List.replicate_succ, fileTriples, ih]

theorem walkSubs_replicate (k : Nat) (p n : String) (r : Except String String) :
    walkSubs p (List.replicate k (.file n r)) = [] := by
  induction k with
  | zero => simp [walkSubs]
  | succ k ih => simp [List.replicate_succ, walkSubs, ih]

theorem countReadable_replicate (k : Nat) (n : String) (r : Except String String)
    (h : strLower (splitextExt n) ∉ skip_extensions ∧ r.isOk = true) :
    countReadable (List.replicate k (.file n r)) = k := by
  induction k with
  | zero => simp [countReadable]
  | succ k ih => simp [List.replicate_succ, countReadable, ih, h]; omega

/-! ### Formatter -/

theorem foldl_blocks (l : List (String × String)) :
    ∀ acc : String,
      l.foldl
        (fun acc nc =>
          ((acc ++ (String.mk (List.replicate 50 '=') ++ "\n"))
              ++ ("文件名: " ++ nc.1 ++ "\n")
              ++ (String.mk (List.replicate 50 '-') ++ "\n"))
              ++ (nc.2 ++ "\n\n")) acc
      = acc ++ joinAll (l.map fileBlock) := by
  induction l with
  | nil => intro acc; simp [joinAll]
  | cons nc l ih =>
      intro acc
      rw [List.map_cons, List.foldl_cons, ih, joinAll]
      simp [fileBlock, String.append_assoc]

/-! ### Shell state -/

theorem foldl_update_content_files (evs : List Record) :
    ∀ st : ShellState,
      (List.foldl update_content st evs).files_content
        = st.files_content
            ++ (evs.filter (fun x => x.kind == "file")).map (fun x => (x.name, x.content)) := by
  induction evs with
  | nil => intro st; simp
  | cons r evs ih =>
      intro st
      rw [List.foldl_cons, ih, List.filter_cons]
      by_cases h1 : r.kind = "structure"
      · have : (r.kind == "file") = false := by simp [h1]
        simp [update_content, h1, this]
      · by_cases h2 : r.kind = "file"
        · have : (r.kind == "file") = true := by simp [h2]
          simp [update_content, h1, h2, this]
        · have : (r.kind == "file") = false := by simp [h2]
          by_cases h3 : r.kind = "error"
          · simp [update_content, h1, h2, h3, this]
          · by_cases h4 : r.kind = "skipped"
            · simp [update_content, h1, h2, h3, h4, this]
            · simp [update_content, h1, h2, h3, h4, this]

theorem process_directory_eq (p : String) (root : FSEntry) :
    process_directory p root 0 = processLoop (walkFrom p root) 0 := by
  unfold process_directory
  rw [if_neg (by norm_num [max_depth])]

/-! ## Claim theorems -/

/-- C1: the claim says a single-file root is processed normally (structure
record, one file record, completion, no escaping exception).  The code
instead calls `os.scandir` on the file inside `get_file_structure`, which
raises `NotADirectoryError` out of `run` before anything is emitted: no
record is produced and completion is never signalled, for every file root
whatever its readability. -/
theorem claim_C1_file_root_raises :
    ∀ (path nm : String) (rr : Except String String),
      runThread path (.file nm rr) = ([], some ("NotADirectoryError: " ++ path)) := by
  intro path nm rr
  simp [runThread, get_file_structure, max_depth]

/-- C2 counterexample: there is no directory forest on which the shared
counter formulation renders differently from the by-value reference
formulation — the claimed divergence does not exist. -/
theorem claim_C2_counterexample :
    ¬ ∃ (cs : List FSEntry) (prefx : String) (m : Int),
        (print_directory cs prefx m).1 ≠ byValue cs prefx m := by
  rintro ⟨cs, prefx, m, h⟩
  exact h (by rw [print_directory_eq_byValue])

/-- C2 (amended): the shared depth counter of `print_directory` is
observationally equivalent to passing `remainingDepth` by value: each
decrement is matched by the increment executed when that descent returns,
so the budget seen by every later sibling is unchanged and the rendered
tree text is identical on every input. -/
theorem claim_C2_shared_budget_equals_by_value :
    ∀ (cs : List FSEntry) (prefx : String) (m : Int),
      (print_directory cs prefx m).1 = byValue cs prefx m
      ∧ (print_directory cs prefx m).2 = m := by
  intro cs prefx m
  rw [print_directory_eq_byValue]
  exact ⟨rfl, rfl⟩

/-- C3: on a directory with more than `max_files` files the walk emits
exactly `max_files` records, namely those of the first `max_files` files in
`os.walk` order — later files and directories contribute nothing. -/
theorem claim_C3_max_files_cap (p nm : String) (cs : List FSEntry)
    (h : max_files < countFiles cs) :
    (process_directory p (.dir nm cs) 0).length = max_files
    ∧ process_directory p (.dir nm cs) 0
        = ((walkFrom p (.dir nm cs)).take max_files).map
            (fun t => process_file t.1 t.2.1 t.2.2) := by
  constructor
  · rw [process_directory_eq, processLoop_length, walkFrom_length]
    omega
  · rw [process_directory_eq, processLoop_take, Nat.sub_zero]

/-- C3 witness: a flat directory with 1001 files. -/
theorem claim_C3_witness :
    max_files < countFiles (List.replicate 1001 (FSEntry.file "t.txt" (.ok "x")))
    ∧ ((process_directory "d"
          (.dir "d" (List.replicate 1001 (FSEntry.file "t.txt" (.ok "x")))) 0).length
        = max_files
      ∧ process_directory "d"
            (.dir "d" (List.replicate 1001 (FSEntry.file "t.txt" (.ok "x")))) 0
          = ((walkFrom "d"
                (.dir "d" (List.replicate 1001 (FSEntry.file "t.txt" (.ok "x"))))).take
                  max_files).map (fun t => process_file t.1 t.2.1 t.2.2)) := by
  have h : max_files < countFiles (List.replicate 1001 (FSEntry.file "t.txt" (.ok "x"))) := by
    rw [countFiles_replicate]
    norm_num [max_files]
  exact ⟨h, claim_C3_max_files_cap "d" "d" _ h⟩

/-- C4: on a directory with at most `max_files` files, every file of the
tree is visited exactly once at every nesting depth: the walk processes the
whole `os.walk` sequence, whose length is the number of files and which is a
permutation of the canonical enumeration of all files of the tree (so file
processing is bounded only by `max_files`, never by `max_depth`). -/
theorem claim_C4_all_files_visited (p nm : String) (cs : List FSEntry)
    (h : countFiles cs ≤ max_files) :
    process_directory p (.dir nm cs) 0
      = (walkFrom p (.dir nm cs)).map (fun t => process_file t.1 t.2.1 t.2.2)
    ∧ (walkFrom p (.dir nm cs)).length = countFiles cs
    ∧ (walkFrom p (.dir nm cs)).Perm (allFiles p cs) := by
  refine ⟨?_, walkFrom_length p nm cs, ?_⟩
  · rw [process_directory_eq, processLoop_take, Nat.sub_zero,
      List.take_of_length_le (by rw [walkFrom_length]; exact h)]
  · unfold walkFrom
    exact walk_perm cs p

/-- C4 witness: a tree with a file at root-relative depth 7, beyond
`max_depth`. -/
theorem claim_C4_witness :
    countFiles
        [FSEntry.dir "d1" [.dir "d2" [.dir "d3" [.dir "d4" [.dir "d5" [.dir "d6"
            [.file "deep.txt" (.ok "x")]]]]]],
         FSEntry.file "top.txt" (.ok "y")] ≤ max_files
    ∧ (process_directory "r"
          (.dir "r" [FSEntry.dir "d1" [.dir "d2" [.dir "d3" [.dir "d4" [.dir "d5" [.dir "d6"
              [.file "deep.txt" (.ok "x")]]]]]],
            FSEntry.file "top.txt" (.ok "y")]) 0
        = (walkFrom "r"
            (.dir "r" [FSEntry.dir "d1" [.dir "d2" [.dir "d3" [.dir "d4" [.dir "d5" [.dir "d6"
                [.file "deep.txt" (.ok "x")]]]]]],
              FSEntry.file "top.txt" (.ok "y")])).map
            (fun t => process_file t.1 t.2.1 t.2.2)
      ∧ (walkFrom "r"
            (.dir "r" [FSEntry.dir "d1" [.dir "d2" [.dir "d3" [.dir "d4" [.dir "d5" [.dir "d6"
                [.file "deep.txt" (.ok "x")]]]]]],
              FSEntry.file "top.txt" (.ok "y")])).length
          = countFiles
              [FSEntry.dir "d1" [.dir "d2" [.dir "d3" [.dir "d4" [.dir "d5" [.dir "d6"
                  [.file "deep.txt" (.ok "x")]]]]]],
               FSEntry.file "top.txt" (.ok "y")]
      ∧ (walkFrom "r"
            (.dir "r" [FSEntry.dir "d1" [.dir "d2" [.dir "d3" [.dir "d4" [.dir "d5" [.dir "d6"
                [.file "deep.txt" (.ok "x")]]]]]],
              FSEntry.file "top.txt" (.ok "y")])).Perm
          (allFiles "r"
            [FSEntry.dir "d1" [.dir "d2" [.dir "d3" [.dir "d4" [.dir "d5" [.dir "d6"
                [.file "deep.txt" (.ok "x")]]]]]],
             FSEntry.file "top.txt" (.ok "y")])) := by
  have h : countFiles
      [FSEntry.dir "d1" [.dir "d2" [.dir "d3" [.dir "d4" [.dir "d5" [.dir "d6"
          [.file "deep.txt" (.ok "x")]]]]]],
       FSEntry.file "top.txt" (.ok "y")] ≤ max_files := by
    simp [countFiles, max_files]
  exact ⟨h, claim_C4_all_files_visited "r" "r" _ h⟩

/-- C5: a file whose lower-cased extension is in the skip set yields the
fixed `skipped` record, and the result is independent of the read outcome —
the file is never opened. -/
theorem claim_C5_skip_set_not_opened (path nm : String)
    (h : strLower (splitextExt nm) ∈ skip_extensions) :
    ∀ rr rr' : Except String String,
      process_file path nm rr = ⟨nm, "跳过该文件类型", "skipped"⟩
      ∧ process_file path nm rr = process_file path nm rr' := by
  intro rr rr'
  constructor <;> simp [process_file, h]

/-- C5 witness: an upper-cased `.PNG` whose read would throw. -/
theorem claim_C5_witness :
    strLower (splitextExt "x.PNG") ∈ skip_extensions
    ∧ (process_file "/r/x.PNG" "x.PNG" (.error "Permission denied")
          = ⟨"x.PNG", "跳过该文件类型", "skipped"⟩
      ∧ process_file "/r/x.PNG" "x.PNG" (.error "Permission denied")
          = process_file "/r/x.PNG" "x.PNG" (.ok "ignored")) := by
  have h : strLower (splitextExt "x.PNG") ∈ skip_extensions := by decide
  exact ⟨h, claim_C5_skip_set_not_opened "/r/x.PNG" "x.PNG" h _ _⟩

/-- C6: a non-skipped file whose read raises produces an `error` record
whose content embeds the full path and the exception text, and the loop
continues with the remaining files. -/
theorem claim_C6_read_error_continues (path nm e : String)
    (h : strLower (splitextExt nm) ∉ skip_extensions)
    (ts : List (String × String × Except String String)) (c : Nat)
    (hc : c < max_files) :
    process_file path nm (.error e)
      = ⟨nm, "Error reading " ++ path ++ ": " ++ e, "error"⟩
    ∧ (∃ pre post, (process_file path nm (.error e)).content = pre ++ path ++ post)
    ∧ (∃ pre2, (process_file path nm (.error e)).content = pre2 ++ e)
    ∧ processLoop ((path, nm, .error e) :: ts) c
        = process_file path nm (.error e) :: processLoop ts (c + 1) := by
  have hrec : process_file path nm (.error e)
      = ⟨nm, "Error reading " ++ path ++ ": " ++ e, "error"⟩ := by
    simp [process_file, h]
  refine ⟨hrec, ⟨"Error reading ", ": " ++ e, ?_⟩, ⟨"Error reading " ++ path ++ ": ", ?_⟩, ?_⟩
  · rw [hrec]
    simp [String.append_assoc]
  · rw [hrec]
  · rw [processLoop, if_neg (by omega)]

/-- C6 witness: a UTF-8 decode failure on `a.txt` at the head of the walk. -/
theorem claim_C6_witness :
    (strLower (splitextExt "a.txt") ∉ skip_extensions ∧ 0 < max_files)
    ∧ (process_file "/r/a.txt" "a.txt" (.error "invalid start byte")
          = ⟨"a.txt", "Error reading /r/a.txt: invalid start byte", "error"⟩
      ∧ (∃ pre post, (process_file "/r/a.txt" "a.txt" (.error "invalid start byte")).content
            = pre ++ "/r/a.txt" ++ post)
      ∧ (∃ pre2, (process_file "/r/a.txt" "a.txt" (.error "invalid start byte")).content
            = pre2 ++ "invalid start byte")
      ∧ processLoop [("/r/a.txt", "a.txt", .error "invalid start byte")] 0
          = process_file "/r/a.txt" "a.txt" (.error "invalid start byte")
              :: processLoop [] 1) := by
  have h : strLower (splitextExt "a.txt") ∉ skip_extensions := by decide
  have hc : (0 : Nat) < max_files := by norm_num [max_files]
  exact ⟨⟨h, hc⟩, claim_C6_read_error_continues "/r/a.txt" "a.txt" "invalid start byte" h [] 0 hc⟩

/-- C7: the rendered text is exactly the header with the structure text
followed by one fixed-delimiter block per accumulated record, in arrival
order; `update_text_edit` is a pure function of these two inputs. -/
theorem claim_C7_render_format (S : String) (recs : List (String × String)) :
    update_text_edit S recs
      = "文件结构:\n" ++ S ++ "\n\n文件内容:\n" ++ joinAll (recs.map fileBlock) := by
  unfold update_text_edit
  rw [foldl_blocks]
  simp only [String.append_assoc]
  rw [show ("\n\n" : String) ++ ("文件内容:\n" ++ joinAll (recs.map fileBlock))
      = "\n\n文件内容:\n" ++ joinAll (recs.map fileBlock) from by
    rw [← String.append_assoc]
    rfl]

/-- C8: a `skipped` or `error` event leaves the accumulated `files_content`
unchanged and only appends one display-list entry; consequently, over any
event sequence, `files_content` is exactly the `file`-kind records, so
skipped and error records never reach the rendered block. -/
theorem claim_C8_only_file_records_accumulate (st : ShellState) (r : Record)
    (h : r.kind = "skipped" ∨ r.kind = "error") :
    (update_content st r).files_content = st.files_content
    ∧ (∃ entry, (update_content st r).fileListWidget = st.fileListWidget ++ [entry])
    ∧ ∀ (evs : List Record) (st₀ : ShellState),
        (List.foldl update_content st₀ evs).files_content
          = st₀.files_content
              ++ (evs.filter (fun x => x.kind == "file")).map (fun x => (x.name, x.content)) := by
  refine ⟨?_, ?_, fun evs st₀ => foldl_update_content_files evs st₀⟩ <;>
    rcases h with h | h
  · simp [update_content, h]
  · simp [update_content, h]
  · exact ⟨"Skipped: " ++ r.name, by simp [update_content, h]⟩
  · exact ⟨"Error: " ++ r.name, by simp [update_content, h]⟩

/-- C8 witness: a skipped event on a non-empty state. -/
theorem claim_C8_witness :
    (Record.mk "x.png" "跳过该文件类型" "skipped").kind = "skipped"
    ∧ ((update_content ⟨[("a", "b")], "T", ["a"]⟩ ⟨"x.png", "跳过该文件类型", "skipped"⟩).files_content
          = [("a", "b")]
      ∧ (∃ entry, (update_content ⟨[("a", "b")], "T", ["a"]⟩
            ⟨"x.png", "跳过该文件类型", "skipped"⟩).fileListWidget = ["a"] ++ [entry])
      ∧ ∀ (evs : List Record) (st₀ : ShellState),
          (List.foldl update_content st₀ evs).files_content
            = st₀.files_content
                ++ (evs.filter (fun x => x.kind == "file")).map (fun x => (x.name, x.content))) :=
  ⟨rfl, claim_C8_only_file_records_accumulate ⟨[("a", "b")], "T", ["a"]⟩
    ⟨"x.png", "跳过该文件类型", "skipped"⟩ (Or.inl rfl)⟩

/-- C9: the tree text lists exactly the entries of root-relative depth
`≤ max_depth` (one line each, so no line for a deeper entry exists), and
pruning everything below depth `max_depth` leaves the rendering unchanged —
the recursion never descends past that depth. -/
theorem claim_C9_tree_depth_bounded (path nm : String) (cs : List FSEntry) :
    get_file_structure path (.dir nm cs)
      = .ok (String.intercalate "\n" (nm :: (print_directory cs "" max_depth).1))
    ∧ (print_directory cs "" max_depth).1.length = countUpTo max_depth cs
    ∧ (print_directory (prune max_depth cs) "" max_depth).1
        = (print_directory cs "" max_depth).1 := by
  refine ⟨rfl, ?_, ?_⟩
  · rw [print_directory_eq_byValue]
    exact byValue_length cs "" max_depth
  · rw [print_directory_eq_byValue, print_directory_eq_byValue]
    exact byValue_prune cs "" max_depth

/-- C10: the per-walk counter counts every visited file whatever its
outcome, so the number of emitted records is `min max_files (number of
files)`; and there is a directory with at least `max_files` readable
non-skipped files for which strictly fewer than `max_files` `file`-kind
records are emitted (a skipped file used up one slot of the budget). -/
theorem claim_C10_every_outcome_counts :
    (∀ (p nm : String) (cs : List FSEntry),
        (process_directory p (.dir nm cs) 0).length = min max_files (countFiles cs))
    ∧ ∃ (nm : String) (cs : List FSEntry),
        max_files ≤ countReadable cs
        ∧ ((process_directory "d" (.dir nm cs) 0).filter (fun x => x.kind == "file")).length
            < max_files := by
  constructor
  · intro p nm cs
    rw [process_directory_eq, processLoop_length, walkFrom_length]
  · refine ⟨"d", FSEntry.file "a.png" (.ok "x")
        :: List.replicate 1000 (.file "t.txt" (.ok "y")), ?_, ?_⟩
    · simp only [countReadable]
      rw [if_neg (by decide), countReadable_replicate 1000 "t.txt" (.ok "y") (by decide)]
      norm_num [max_files]
    · rw [process_directory_eq]
      rw [show walkFrom "d" (.dir "d" (FSEntry.file "a.png" (.ok "x")
            :: List.replicate 1000 (.file "t.txt" (.ok "y"))))
          = ("d" ++ "/" ++ "a.png", "a.png", Except.ok "x")
              :: List.replicate 1000 ("d" ++ "/" ++ "t.txt", "t.txt", Except.ok "y") from by
        rw [walkFrom, fileTriples, walkSubs, fileTriples_replicate, walkSubs_replicate,
          List.append_nil]]
      rw [processLoop_take, Nat.sub_zero,
        show max_files = 999 + 1 from by norm_num [max_files],
        List.take_succ_cons, List.take_replicate, List.map_cons, List.map_replicate,
        show min 999 1000 = 999 from by norm_num]
      dsimp only
      rw [show process_file ("d" ++ "/" ++ "a.png") "a.png" (Except.ok "x")
            = (⟨"a.png", "跳过该文件类型", "skipped"⟩ : Record) from by decide,
        show process_file ("d" ++ "/" ++ "t.txt") "t.txt" (Except.ok "y")
            = (⟨"t.txt", "y", "file"⟩ : Record) from by decide]
      rw [List.filter_cons, if_neg (by decide), List.filter_replicate,
        if_pos (by decide), List.length_replicate]
      omega

end CSR

-- Concrete evaluations of the embedded functions.
example : CSR.splitextExt "a.png" = ".png" := by decide
example : CSR.splitextExt ".cshrc" = "" := by decide
example : CSR.splitextExt "a.b.c" = ".c" := by decide
example : CSR.splitextExt "noext" = "" := rfl
example : CSR.process_file "/r/x.PNG" "x.PNG" (.error "boom")
    = ⟨"x.PNG", "跳过该文件类型", "skipped"⟩ := rfl
example : CSR.process_file "/r/x.txt" "x.txt" (.error "boom")
    = ⟨"x.txt", "Error reading /r/x.txt: boom", "error"⟩ := rfl
example :
    CSR.walkFrom "r" (.dir "r"
      [.file "a" (.ok "1"), .dir "d" [.file "b" (.ok "2")], .file "c" (.ok "3")])
    = [("r/a", "a", .ok "1"), ("r/c", "c", .ok "3"), ("r/d/b", "b", .ok "2")] := by
  simp [CSR.walkFrom, CSR.walkSubs, CSR.fileTriples]
